import Mathlib

/-
Verification of the stock-api data-acquisition core.

Shallow embedding of:
  src/utils/instruments.py        (Instrument, InstrumentManager)
  src/utils/marketHours.py        (getMarketState, isMarketOpen, next-open helpers)
  src/classes/TwelveDataManager.py   (RateLimiter, fetchData, handleReconnect)
  src/classes/TwelveDataWebSocket.py (handleReconnect variant)
  src/db/stocks.py                (save_stock_data upsert semantics)

Conventions: Python float timestamps are modelled as exact rationals,
wall time at discrete checkpoints is modelled as a Bool-valued trace,
Python exceptions / ValueError are modelled with Option (none = raised).
-/

namespace StockAPI

/-! ## Constants (src/classes/TwelveDataManager.py lines 28-35, identical in
    src/classes/TwelveDataWebSocket.py lines 28-31) -/

def RATE_LIMIT_PER_MINUTE : ℕ := 55

def POLLING_INTERVAL : ℕ := 60

def MAX_RECONNECT_ATTEMPTS : ℕ := 5

def INITIAL_RECONNECT_DELAY : ℕ := 5

def MAX_RECONNECT_DELAY : ℕ := 60

/-! ## Instruments (src/utils/instruments.py)

`Instrument.__init__(symbol, exchange, name=None)` stores the three fields,
with `name` defaulting to `symbol`.  `InstrumentManager.instruments` is a
Python `List[Instrument]`; `addInstrument` appends; `getInstrumentBySymbol`
is a linear scan returning the first match. -/

structure Instrument where
  symbol : String
  exchange : String
  name : String
  deriving Repr, DecidableEq

/-- Constructor `Instrument(symbol, exchange, name)` with the `name or symbol` default. -/
def Instrument.make (symbol exchange : String) (name : Option String) : Instrument :=
  { symbol := symbol, exchange := exchange, name := name.getD symbol }

/-- Method `InstrumentManager.addInstrument`: constructs an `Instrument` and appends
it to the `instruments` list (src/utils/instruments.py lines 39-55). -/
def addInstrument (instruments : List Instrument) (symbol exchange : String)
    (name : Option String) : List Instrument :=
  instruments ++ [Instrument.make symbol exchange name]

/-- Method `InstrumentManager.getInstrumentBySymbol`: loop over the list, return the
first instrument whose `symbol` equals the query, else `None`
(src/utils/instruments.py lines 66-79). -/
def getInstrumentBySymbol : List Instrument → String → Option Instrument
  | [], _ => none
  | i :: rest, s => if i.symbol = s then some i else getInstrumentBySymbol rest s

/-! ## Reconnect handling (src/classes/TwelveDataManager.py lines 288-321 and
    src/classes/TwelveDataWebSocket.py lines 382-415)

The shutdown `Event` is modelled as a trace `f : ℕ → Bool` giving the flag
value observed at the k-th one-second checkpoint inside the call (the entry
check is checkpoint 0; each loop iteration checks the flag and then sleeps
one second). -/

/-- Result of a `handleReconnect` call: the final `reconnect_attempts`
counter and the total seconds slept inside the call. -/
structure ReconnectResult where
  attempts : ℕ
  slept : ℕ
  deriving Repr, DecidableEq

/-- Loop `for _ in range(n): if shutdown_event.is_set(): return; time.sleep(1)`.
Returns the elapsed seconds at exit and whether the loop was interrupted
by the shutdown flag. -/
def sleepLoop (f : ℕ → Bool) : ℕ → ℕ → ℕ × Bool
  | 0, t => (t, false)
  | n + 1, t => if f t then (t, true) else sleepLoop f n (t + 1)

/-- Method `TwelveDataManager.handleReconnect` (src/classes/TwelveDataManager.py
lines 288-321): entry shutdown check; increment the attempt counter; past the
maximum, run the 60-iteration cooldown loop (1-second shutdown checks) and
reset the counter to 0 only if the cooldown completes; otherwise sleep
`min(INITIAL_RECONNECT_DELAY * 2^(attempts-1), MAX_RECONNECT_DELAY)` seconds
in 1-second shutdown-checked steps. -/
def handleReconnect (f : ℕ → Bool) (reconnect_attempts : ℕ) : ReconnectResult :=
  if f 0 then ⟨reconnect_attempts, 0⟩
  else
    let a := reconnect_attempts + 1
    if MAX_RECONNECT_ATTEMPTS < a then
      match sleepLoop f 60 0 with
      | (t, true) => ⟨a, t⟩
      | (t, false) => ⟨0, t⟩
    else
      let delay := min (INITIAL_RECONNECT_DELAY * 2 ^ (a - 1)) MAX_RECONNECT_DELAY
      ⟨a, (sleepLoop f delay 0).1⟩

/-- Method `TwelveDataWebSocket.handleReconnect` (src/classes/TwelveDataWebSocket.py
lines 382-415): identical except that the over-maximum cooldown is a single
`time.sleep(60)` with no shutdown check before the counter reset.  (The
`self.stop()` teardown before the backoff wait does not affect the counter
or the sleeping and is not modelled.) -/
def wsHandleReconnect (f : ℕ → Bool) (reconnect_attempts : ℕ) : ReconnectResult :=
  if f 0 then ⟨reconnect_attempts, 0⟩
  else
    let a := reconnect_attempts + 1
    if MAX_RECONNECT_ATTEMPTS < a then ⟨0, 60⟩
    else
      let delay := min (INITIAL_RECONNECT_DELAY * 2 ^ (a - 1)) MAX_RECONNECT_DELAY
      ⟨a, (sleepLoop f delay 0).1⟩

/-! helper lemmas about `sleepLoop` -/

lemma sleepLoop_false (n t : ℕ) : sleepLoop (fun _ => false) n t = (t + n, false) := by
  induction n generalizing t with
  | zero => rfl
  | succ k ih =>
    rw [sleepLoop, if_neg (by simp), ih (t + 1)]
    have h1 : t + 1 + k = t + (k + 1) := by omega
    rw [h1]

lemma sleepLoop_fst_le (f : ℕ → Bool) (n t : ℕ) : (sleepLoop f n t).1 ≤ t + n := by
  induction n generalizing t with
  | zero => simp [sleepLoop]
  | succ k ih =>
    rw [sleepLoop]
    by_cases h : f t = true
    · rw [if_pos h]; omega
    · rw [if_neg h]
      have := ih (t + 1)
      omega

lemma sleepLoop_exits_by (f : ℕ → Bool)
    (hmono : ∀ i j, i ≤ j → f i = true → f j = true) (k : ℕ) (hk : f k = true)
    (n t : ℕ) : (sleepLoop f n t).1 ≤ max t k := by
  induction n generalizing t with
  | zero => simp [sleepLoop]
  | succ m ih =>
    rw [sleepLoop]
    by_cases h : f t = true
    · rw [if_pos h]; simp
    · rw [if_neg h]
      have htk : t < k := by
        by_contra hle
        exact h (hmono k t (by omega) hk)
      have := ih (t + 1)
      omega

lemma handleReconnect_noShutdown_le (att : ℕ) (h : att + 1 ≤ MAX_RECONNECT_ATTEMPTS) :
    handleReconnect (fun _ => false) att
      = ⟨att + 1, min (INITIAL_RECONNECT_DELAY * 2 ^ att) MAX_RECONNECT_DELAY⟩ := by
  simp only [handleReconnect]
  rw [if_neg (by simp), if_neg (by omega), sleepLoop_false]
  simp

lemma wsHandleReconnect_noShutdown_le (att : ℕ) (h : att + 1 ≤ MAX_RECONNECT_ATTEMPTS) :
    wsHandleReconnect (fun _ => false) att
      = ⟨att + 1, min (INITIAL_RECONNECT_DELAY * 2 ^ att) MAX_RECONNECT_DELAY⟩ := by
  simp only [wsHandleReconnect]
  rw [if_neg (by simp), if_neg (by omega), sleepLoop_false]
  simp

lemma handleReconnect_noShutdown_over (att : ℕ) (h : MAX_RECONNECT_ATTEMPTS ≤ att) :
    handleReconnect (fun _ => false) att = ⟨0, 60⟩ := by
  simp only [handleReconnect]
  rw [if_neg (by simp), if_pos (by omega), sleepLoop_false]

lemma wsHandleReconnect_noShutdown_over (att : ℕ) (h : MAX_RECONNECT_ATTEMPTS ≤ att) :
    wsHandleReconnect (fun _ => false) att = ⟨0, 60⟩ := by
  simp only [wsHandleReconnect]
  rw [if_neg (by simp), if_pos (by omega)]

/-- Claim C3: with the shutdown flag never set, for every attempt number `n`
with `1 ≤ n ≤ MAX_RECONNECT_ATTEMPTS` the backoff wait before the next
connection attempt is `min(INITIAL_RECONNECT_DELAY * 2^(n-1),
MAX_RECONNECT_DELAY)` seconds (concretely 5, 10, 20, 40, 60), and once the
attempt counter would exceed the maximum, both the REST and the WebSocket
variants wait the fixed 60-second cooldown and reset the counter to zero
rather than giving up. -/
theorem backoff_delay_formula_and_counter_reset (n a : ℕ)
    (h1 : 1 ≤ n) (h2 : n ≤ MAX_RECONNECT_ATTEMPTS) (h3 : MAX_RECONNECT_ATTEMPTS ≤ a) :
    (handleReconnect (fun _ => false) (n - 1)).slept
        = min (INITIAL_RECONNECT_DELAY * 2 ^ (n - 1)) MAX_RECONNECT_DELAY ∧
    (wsHandleReconnect (fun _ => false) (n - 1)).slept
        = min (INITIAL_RECONNECT_DELAY * 2 ^ (n - 1)) MAX_RECONNECT_DELAY ∧
    (handleReconnect (fun _ => false) (n - 1)).attempts = n ∧
    (handleReconnect (fun _ => false) 0).slept = 5 ∧
    (handleReconnect (fun _ => false) 1).slept = 10 ∧
    (handleReconnect (fun _ => false) 2).slept = 20 ∧
    (handleReconnect (fun _ => false) 3).slept = 40 ∧
    (handleReconnect (fun _ => false) 4).slept = 60 ∧
    (handleReconnect (fun _ => false) a).attempts = 0 ∧
    (handleReconnect (fun _ => false) a).slept = 60 ∧
    (wsHandleReconnect (fun _ => false) a).attempts = 0 ∧
    (wsHandleReconnect (fun _ => false) a).slept = 60 := by
  have hn : n - 1 + 1 = n := by omega
  have hr := handleReconnect_noShutdown_le (n - 1) (by omega)
  have hw := wsHandleReconnect_noShutdown_le (n - 1) (by omega)
  have hro := handleReconnect_noShutdown_over a h3
  have hwo := wsHandleReconnect_noShutdown_over a h3
  rw [hr, hw, hro, hwo]
  refine ⟨rfl, rfl, hn, ?_, ?_, ?_, ?_, ?_, rfl, rfl, rfl, rfl⟩ <;> decide

/-- Witness for C3 at the fifth attempt (`n = 5`, counter already at the
maximum for the reset part). -/
theorem backoff_delay_formula_and_counter_reset_witness :
    (handleReconnect (fun _ => false) (5 - 1)).slept
        = min (INITIAL_RECONNECT_DELAY * 2 ^ (5 - 1)) MAX_RECONNECT_DELAY ∧
    (wsHandleReconnect (fun _ => false) (5 - 1)).slept
        = min (INITIAL_RECONNECT_DELAY * 2 ^ (5 - 1)) MAX_RECONNECT_DELAY ∧
    (handleReconnect (fun _ => false) (5 - 1)).attempts = 5 ∧
    (handleReconnect (fun _ => false) 0).slept = 5 ∧
    (handleReconnect (fun _ => false) 1).slept = 10 ∧
    (handleReconnect (fun _ => false) 2).slept = 20 ∧
    (handleReconnect (fun _ => false) 3).slept = 40 ∧
    (handleReconnect (fun _ => false) 4).slept = 60 ∧
    (handleReconnect (fun _ => false) 5).attempts = 0 ∧
    (handleReconnect (fun _ => false) 5).slept = 60 ∧
    (wsHandleReconnect (fun _ => false) 5).attempts = 0 ∧
    (wsHandleReconnect (fun _ => false) 5).slept = 60 :=
  backoff_delay_formula_and_counter_reset 5 5 (by decide) (by decide) (by decide)

/-- Claim C8, counterexample: in the WebSocket variant the over-maximum
cooldown is a single uninterrupted `time.sleep(60)`.  With the shutdown flag
set from 1 second into the call onward, the call still sleeps the full 60
seconds instead of exiting within 1 second. -/
theorem wsCooldown_ignores_shutdown_counterexample :
    ((fun t => decide (1 ≤ t)) 1 = true) ∧
    (wsHandleReconnect (fun t => decide (1 ≤ t)) MAX_RECONNECT_ATTEMPTS).slept = 60 := by
  constructor <;> decide

/-- Claim C8 as amended: every backoff wait in both variants, and the REST
variant's cooldown wait, check the shutdown flag at 1-second granularity:
if the (monotone) shutdown trace is set from checkpoint `k` on, the call
sleeps at most `k` seconds in total — not the full backoff duration.  (The
WebSocket cooldown wait is excluded: it never checks the flag.) -/
theorem backoff_waits_observe_shutdown (f : ℕ → Bool)
    (hmono : ∀ i j, i ≤ j → f i = true → f j = true) (k : ℕ) (hk : f k = true)
    (att : ℕ) :
    (handleReconnect f att).slept ≤ k ∧
    (att + 1 ≤ MAX_RECONNECT_ATTEMPTS → (wsHandleReconnect f att).slept ≤ k) := by
  have hexits := sleepLoop_exits_by f hmono k hk
  constructor
  · simp only [handleReconnect]
    by_cases h0 : f 0 = true
    · rw [if_pos h0]
      exact Nat.zero_le k
    · rw [if_neg h0]
      by_cases hM : MAX_RECONNECT_ATTEMPTS < att + 1
      · rw [if_pos hM]
        have h60 := hexits 60 0
        rcases hsl : sleepLoop f 60 0 with ⟨t, b⟩
        rw [hsl] at h60
        simp only [Nat.max_eq_right (Nat.zero_le k)] at h60
        cases b <;> simp [h60]
      · rw [if_neg hM]
        have := hexits (min (INITIAL_RECONNECT_DELAY * 2 ^ (att + 1 - 1)) MAX_RECONNECT_DELAY) 0
        simpa [Nat.max_eq_right (Nat.zero_le k)] using this
  · intro hle
    simp only [wsHandleReconnect]
    by_cases h0 : f 0 = true
    · rw [if_pos h0]
      exact Nat.zero_le k
    · rw [if_neg h0]
      rw [if_neg (by omega)]
      have := hexits (min (INITIAL_RECONNECT_DELAY * 2 ^ (att + 1 - 1)) MAX_RECONNECT_DELAY) 0
      simpa [Nat.max_eq_right (Nat.zero_le k)] using this

/-- Witness for the amended C8: shutdown flag set from second 2 of the wait
(first backoff attempt, nominal delay 5 seconds). -/
theorem backoff_waits_observe_shutdown_witness :
    (handleReconnect (fun t => decide (2 ≤ t)) 0).slept ≤ 2 ∧
    (wsHandleReconnect (fun t => decide (2 ≤ t)) 0).slept ≤ 2 :=
  ⟨(backoff_waits_observe_shutdown (fun t => decide (2 ≤ t))
      (by
        intro i j hij hi
        simp only [decide_eq_true_eq] at hi ⊢
        omega)
      2 (by decide) 0).1,
   (backoff_waits_observe_shutdown (fun t => decide (2 ≤ t))
      (by
        intro i j hij hi
        simp only [decide_eq_true_eq] at hi ⊢
        omega)
      2 (by decide) 0).2 (by decide)⟩

/-- Claim C9 (evidence of the code bug): `InstrumentManager.addInstrument`
appends every add to a plain list — `Instrument` has no `companyId` field
and nothing is keyed or overwritten, so adding the same instrument twice
leaves two duplicate entries instead of the claimed at-most-one entry per
companyId (its caller `TwelveDataManager` instead expects a dict registry:
it calls `instruments.values()`, `get_instrument` and `instrument.company_id`,
none of which exist on this list-based class). -/
theorem addInstrument_keeps_duplicates :
    addInstrument (addInstrument [] "RELIANCE" "NSE" none) "RELIANCE" "NSE" none
      = [⟨"RELIANCE", "NSE", "RELIANCE"⟩, ⟨"RELIANCE", "NSE", "RELIANCE"⟩] ∧
    (addInstrument (addInstrument [] "RELIANCE" "NSE" none) "RELIANCE" "NSE" none).length
      = 2 := by
  constructor <;> rfl

/-- Claim C10: `getInstrumentBySymbol` returns the first instrument added
whose `symbol` field equals the query (a registry with a match decomposes as
`pre ++ inst :: suf` with no match in `pre`, and lookup returns exactly that
`inst`), and returns `none` when no instrument matches. -/
theorem getInstrumentBySymbol_first_match (s : String)
    (pre suf : List Instrument) (inst : Instrument)
    (hsym : inst.symbol = s) (hpre : ∀ i ∈ pre, i.symbol ≠ s) :
    getInstrumentBySymbol (pre ++ inst :: suf) s = some inst ∧
    ∀ l : List Instrument, (∀ i ∈ l, i.symbol ≠ s) → getInstrumentBySymbol l s = none := by
  constructor
  · induction pre with
    | nil =>
      simp only [List.nil_append, getInstrumentBySymbol]
      rw [if_pos hsym]
    | cons a as ih =>
      have ha : a.symbol ≠ s := hpre a (by simp)
      simp only [List.cons_append, getInstrumentBySymbol]
      rw [if_neg ha]
      exact ih (fun i hi => hpre i (by simp [hi]))
  · intro l
    induction l with
    | nil => intro _; rfl
    | cons a as ih =>
      intro hl
      rw [getInstrumentBySymbol, if_neg (hl a (by simp))]
      exact ih (fun i hi => hl i (by simp [hi]))

/-- Witness for C10: the same symbol listed on NSE first and BSE second —
lookup returns the earlier (NSE) listing. -/
theorem getInstrumentBySymbol_first_match_witness :
    getInstrumentBySymbol
        (addInstrument (addInstrument [] "TCS" "NSE" none) "TCS" "BSE" none) "TCS"
      = some ⟨"TCS", "NSE", "TCS"⟩ :=
  (getInstrumentBySymbol_first_match ("TCS") [] [⟨"TCS", "BSE", "TCS"⟩]
    ⟨"TCS", "NSE", "TCS"⟩ rfl (by simp)).1

/-! ## Market hours (src/utils/marketHours.py, src/constants/markets.py)

Times of day are modelled as seconds since local midnight (Python `time`
objects compare lexicographically on hour/minute/second, equivalent to this
encoding; the configured times have zero seconds).  The current instant is a
(weekday, seconds-of-day) pair in the market's local timezone.  The external
Twelve Data market-status check in `getMarketState` is modelled by the
parameter `apiVerifiedOpen` (`true` when the oracle confirms open, is
unavailable, or errors — the code falls back to the local calculation). -/

inductive MarketState where
  | OPEN
  | CLOSED
  | PRE_MARKET
  | POST_MARKET
  | HOLIDAY
  | WEEKEND
  deriving Repr, DecidableEq

structure MarketConfig where
  name : String
  openTime : ℕ
  closeTime : ℕ
  preMarketStart : Option ℕ
  postMarketEnd : Option ℕ
  closedDays : List ℕ
  deriving Repr, DecidableEq

def secondsOfDay (h m : ℕ) : ℕ := h * 3600 + m * 60

/-- Constant `MARKET_CONFIGS["India"]` (src/constants/markets.py lines 50-58). -/
def INDIA_CONFIG : MarketConfig :=
  { name := "India (NSE/BSE)"
    openTime := secondsOfDay 9 15
    closeTime := secondsOfDay 18 30
    preMarketStart := some (secondsOfDay 9 0)
    postMarketEnd := some (secondsOfDay 19 0)
    closedDays := [5, 6] }

/-- Constant `MARKET_CONFIGS["US"]` (src/constants/markets.py lines 59-67). -/
def US_CONFIG : MarketConfig :=
  { name := "US (NYSE/NASDAQ)"
    openTime := secondsOfDay 9 30
    closeTime := secondsOfDay 16 0
    preMarketStart := some (secondsOfDay 4 0)
    postMarketEnd := some (secondsOfDay 20 0)
    closedDays := [5, 6] }

/-- Constant `MARKET_CONFIGS["UK"]` (src/constants/markets.py lines 68-76). -/
def UK_CONFIG : MarketConfig :=
  { name := "UK (LSE)"
    openTime := secondsOfDay 8 0
    closeTime := secondsOfDay 16 30
    preMarketStart := some (secondsOfDay 7 0)
    postMarketEnd := some (secondsOfDay 17 0)
    closedDays := [5, 6] }

/-- Condition `config.pre_market_start and config.pre_market_start <= current_time <
config.open_time` (src/utils/marketHours.py lines 163-166). -/
def inPreMarketWindow (c : MarketConfig) (t : ℕ) : Bool :=
  match c.preMarketStart with
  | none => false
  | some p => decide (p ≤ t) && decide (t < c.openTime)

/-- Condition `config.post_market_end and config.close_time < current_time <=
config.post_market_end` (src/utils/marketHours.py lines 186-189). -/
def inPostMarketWindow (c : MarketConfig) (t : ℕ) : Bool :=
  match c.postMarketEnd with
  | none => false
  | some p => decide (c.closeTime < t) && decide (t ≤ p)

/-- The `state` classification of `getMarketState`
(src/utils/marketHours.py lines 65-215): weekend check, then the inclusive
open window `open_time <= current_time <= close_time` (downgraded to
HOLIDAY when the external status check reports closed), then pre-market,
post-market, and CLOSED otherwise. -/
def marketStateOf (c : MarketConfig) (weekday t : ℕ) (apiVerifiedOpen : Bool) :
    MarketState :=
  if weekday ∈ c.closedDays then .WEEKEND
  else if c.openTime ≤ t ∧ t ≤ c.closeTime then
    (if apiVerifiedOpen then .OPEN else .HOLIDAY)
  else if inPreMarketWindow c t then .PRE_MARKET
  else if inPostMarketWindow c t then .POST_MARKET
  else .CLOSED

/-- Function `isMarketOpen` (src/utils/marketHours.py lines 244-255): true iff the
state is exactly OPEN. -/
def isMarketOpen (c : MarketConfig) (weekday t : ℕ) (apiVerifiedOpen : Bool) : Bool :=
  decide (marketStateOf c weekday t apiVerifiedOpen = .OPEN)

/-- Claim C4: with no holiday override, on a trading weekday `isMarketOpen`
is true exactly when `open_time <= now <= close_time` (closed-inclusive on
both ends); for India in particular it is true at exactly 09:15:00 and
exactly 18:30:00 and false at 09:14:59 and 18:30:01. -/
theorem isMarketOpen_boundary_inclusive (c : MarketConfig) (w t : ℕ)
    (hw : w ∉ c.closedDays) :
    (isMarketOpen c w t true = true ↔ (c.openTime ≤ t ∧ t ≤ c.closeTime)) ∧
    isMarketOpen INDIA_CONFIG 1 (secondsOfDay 9 15) true = true ∧
    isMarketOpen INDIA_CONFIG 1 (secondsOfDay 18 30) true = true ∧
    isMarketOpen INDIA_CONFIG 1 (secondsOfDay 9 15 - 1) true = false ∧
    isMarketOpen INDIA_CONFIG 1 (secondsOfDay 18 30 + 1) true = false := by
  refine ⟨?_, by decide, by decide, by decide, by decide⟩
  simp only [isMarketOpen, marketStateOf, if_neg hw, decide_eq_true_eq]
  by_cases h : c.openTime ≤ t ∧ t ≤ c.closeTime
  · rw [if_pos h]
    simp [h]
  · rw [if_neg h]
    constructor
    · intro habs
      exfalso
      by_cases h1 : inPreMarketWindow c t = true
      · rw [if_pos h1] at habs
        exact MarketState.noConfusion habs
      · rw [if_neg h1] at habs
        by_cases h2 : inPostMarketWindow c t = true
        · rw [if_pos h2] at habs
          exact MarketState.noConfusion habs
        · rw [if_neg h2] at habs
          exact MarketState.noConfusion habs
    · intro hc
      exact absurd hc h

/-- Witness for C4 on a Tuesday (`weekday = 1`) at exactly the India open
boundary. -/
theorem isMarketOpen_boundary_inclusive_witness :
    (isMarketOpen INDIA_CONFIG 1 (secondsOfDay 9 15) true = true ↔
      (INDIA_CONFIG.openTime ≤ secondsOfDay 9 15 ∧
        secondsOfDay 9 15 ≤ INDIA_CONFIG.closeTime)) ∧
    isMarketOpen INDIA_CONFIG 1 (secondsOfDay 9 15) true = true ∧
    isMarketOpen INDIA_CONFIG 1 (secondsOfDay 18 30) true = true ∧
    isMarketOpen INDIA_CONFIG 1 (secondsOfDay 9 15 - 1) true = false ∧
    isMarketOpen INDIA_CONFIG 1 (secondsOfDay 18 30 + 1) true = false :=
  isMarketOpen_boundary_inclusive INDIA_CONFIG 1 (secondsOfDay 9 15) (by decide)

/-! ## Next market open (src/utils/marketHours.py lines 218-241, 317-327)

Python `datetime` values are modelled as a calendar date plus seconds since
midnight.  `datetime.replace(day=d)` raises `ValueError` for a day that does
not exist in the current month; that failure is modelled as `none`.  The
`while` loop skipping closed weekdays is modelled with fuel 7, which is
enough for any closed-day set that is not all seven weekdays (India closes
only Saturday and Sunday). -/

structure PyDateTime where
  year : ℕ
  month : ℕ
  day : ℕ
  sod : ℕ
  deriving Repr, DecidableEq

def isLeapYear (y : ℕ) : Bool :=
  (decide (y % 4 = 0) && decide (y % 100 ≠ 0)) || decide (y % 400 = 0)

def daysInMonth (y m : ℕ) : ℕ :=
  if m = 2 then (if isLeapYear y then 29 else 28)
  else if m ∈ [4, 6, 9, 11] then 30
  else 31

def daysBeforeMonth (y m : ℕ) : ℕ :=
  (List.range (m - 1)).foldl (fun acc i => acc + daysInMonth y (i + 1)) 0

/-- Proleptic-Gregorian day number (0001-01-01 is day 1). -/
def rataDie (d : PyDateTime) : ℕ :=
  365 * (d.year - 1) + (d.year - 1) / 4 - (d.year - 1) / 100 + (d.year - 1) / 400
    + daysBeforeMonth d.year d.month + d.day

/-- Python `datetime.weekday()`: Monday = 0 .. Sunday = 6 (0001-01-01 was a
Monday). -/
def pyWeekday (d : PyDateTime) : ℕ := (rataDie d - 1) % 7

/-- Seconds since the proleptic epoch; differences of this model
`(a - b).total_seconds()`. -/
def epochSeconds (d : PyDateTime) : ℤ := (rataDie d : ℤ) * 86400 + d.sod

/-- Python `datetime.replace(day=newDay)`: `ValueError` (none) when the day is not
valid for the current month/year. -/
def replaceDay (d : PyDateTime) (newDay : ℕ) : Option PyDateTime :=
  if 1 ≤ newDay ∧ newDay ≤ daysInMonth d.year d.month then
    some { d with day := newDay }
  else none

/-- Python `now.replace(hour=.., minute=.., second=0, microsecond=0)`. -/
def replaceTime (d : PyDateTime) (sod : ℕ) : PyDateTime := { d with sod := sod }

/-- Loop `while next_open.weekday() in config.closed_days: next_open =
next_open.replace(day=next_open.day + 1)` (src/utils/marketHours.py lines
232-233), with fuel. -/
def skipClosedDays (c : MarketConfig) : ℕ → PyDateTime → Option PyDateTime
  | 0, dt => if pyWeekday dt ∈ c.closedDays then none else some dt
  | fuel + 1, dt =>
    if pyWeekday dt ∈ c.closedDays then
      (replaceDay dt (dt.day + 1)).bind (skipClosedDays c fuel)
    else some dt

/-- Function `_getNextMarketOpen` (src/utils/marketHours.py lines 218-235): set the
time to the configured open; if already past today's close, move to
`day + 1` via `replace` (no month rollover — `ValueError` past month end);
then skip closed weekdays the same way. -/
def getNextMarketOpen (now : PyDateTime) (c : MarketConfig) : Option PyDateTime :=
  let next0 := replaceTime now c.openTime
  let next1 := if c.closeTime < now.sod then replaceDay next0 (next0.day + 1) else some next0
  next1.bind (skipClosedDays c 7)

/-- Function `_getSecondsUntilNextOpen` (src/utils/marketHours.py lines 238-241). -/
def getSecondsUntilNextOpen (now : PyDateTime) (c : MarketConfig) : Option ℤ :=
  (getNextMarketOpen now c).map (fun nxt => epochSeconds nxt - epochSeconds now)

/-- The `time_until_open` field of `getMarketState`, returned by
`getTimeUntilMarketOpen` (src/utils/marketHours.py lines 96-215, 317-327):
0 inside the open window (also in the HOLIDAY downgrade), seconds until the
open boundary in pre-market, and `_getSecondsUntilNextOpen` on weekends,
post-market and otherwise-closed times. -/
def getTimeUntilMarketOpen (c : MarketConfig) (now : PyDateTime) : Option ℤ :=
  if pyWeekday now ∈ c.closedDays then getSecondsUntilNextOpen now c
  else if c.openTime ≤ now.sod ∧ now.sod ≤ c.closeTime then some 0
  else if inPreMarketWindow c now.sod then
    some (epochSeconds (replaceTime now c.openTime) - epochSeconds now)
  else if inPostMarketWindow c now.sod then getSecondsUntilNextOpen now c
  else getSecondsUntilNextOpen now c

/-- Claim C7 (evidence of the code bug): `_getNextMarketOpen` advances days
with `replace(day=day + 1)`, which raises `ValueError` when the next open
day falls in the following month.  On Saturday 2025-05-31 10:00 India time
the next open is Monday 2025-06-02, but the code raises (modelled `none`)
instead of returning the seconds until then — while within one month the
weekday skipping works (Saturday 2025-05-24 10:00 correctly yields Monday
09:15, i.e. 170100 seconds). -/
theorem nextMarketOpen_month_rollover_fails :
    pyWeekday ⟨2025, 5, 31, secondsOfDay 10 0⟩ = 5 ∧
    (5 ∈ INDIA_CONFIG.closedDays) ∧
    getNextMarketOpen ⟨2025, 5, 31, secondsOfDay 10 0⟩ INDIA_CONFIG = none ∧
    getTimeUntilMarketOpen INDIA_CONFIG ⟨2025, 5, 31, secondsOfDay 10 0⟩ = none ∧
    getTimeUntilMarketOpen INDIA_CONFIG ⟨2025, 5, 24, secondsOfDay 10 0⟩
      = some 170100 := by
  refine ⟨by decide, by decide, ?_, ?_, ?_⟩ <;> decide

/-! ## Persistence sink (src/db/stocks.py lines 7-69)

`save_stock_data` filters valid payloads, then for each payload builds one
`UpdateOne({_id}, update_doc, upsert=True)`: every key other than `_id`
goes into `$set`, except `nse_data`/`bse_data` when truthy, which go into
`$addToSet` (a falsy exchange value falls through to `$set`, writing null).
The exchange payload type is a parameter `Q`; the store is the `stocks`
collection, a list of documents with a unique `_id`.  MongoDB semantics
used: upsert matches the (unique) document with the same `_id`; on a miss
it inserts `$set` fields plus each `$addToSet` field as a one-element
array; on a hit, `$set` overwrites and `$addToSet` appends to the array
when the value is not yet present, failing on a non-array (null) field.
The 1000-document chunking does not change the sequential per-document
semantics and is not modelled; a failed operation aborts the model run
(none), while an unordered Mongo bulk would continue with the remaining
documents — the claims below only concern error-free runs. -/

inductive MongoField (Q : Type) where
  | null : MongoField Q
  | array : List Q → MongoField Q
  deriving Repr, DecidableEq

structure StockPayload (Q : Type) where
  docId : String
  stock_name : String
  company_id : String
  createdAt : ℤ
  nse_data : Option Q
  bse_data : Option Q
  deriving Repr, DecidableEq

structure StoredDoc (Q : Type) where
  docId : String
  stock_name : String
  company_id : String
  createdAt : ℤ
  nse_data : MongoField Q
  bse_data : MongoField Q
  deriving Repr, DecidableEq

/-- Operator `$addToSet` on one field of an existing document. -/
def addToSetField {Q : Type} [DecidableEq Q] : MongoField Q → Q → Option (MongoField Q)
  | .null, _ => none
  | .array l, v => some (.array (if v ∈ l then l else l ++ [v]))

/-- Applying the built `UpdateOne` to the existing document with the same
`_id`: the `$set` phase writes stock_name/company_id/createdAt always and
writes null over an exchange field whose payload value is falsy; then the
`$addToSet` phase merges each truthy exchange payload. -/
def applyUpdateExisting {Q : Type} [DecidableEq Q] (p : StockPayload Q)
    (d : StoredDoc Q) : Option (StoredDoc Q) :=
  let d1 : StoredDoc Q :=
    { d with
      stock_name := p.stock_name
      company_id := p.company_id
      createdAt := p.createdAt
      nse_data := if p.nse_data.isNone then .null else d.nse_data
      bse_data := if p.bse_data.isNone then .null else d.bse_data }
  let d2 : Option (StoredDoc Q) :=
    match p.nse_data with
    | none => some d1
    | some v => (addToSetField d1.nse_data v).map (fun f => { d1 with nse_data := f })
  d2.bind (fun e =>
    match p.bse_data with
    | none => some e
    | some v => (addToSetField e.bse_data v).map (fun f => { e with bse_data := f }))

/-- Applying the built `UpdateOne` as an insert (no document with this
`_id`): `$set` fields become the document, each `$addToSet` value becomes a
one-element array. -/
def applyInsert {Q : Type} (p : StockPayload Q) : StoredDoc Q :=
  { docId := p.docId
    stock_name := p.stock_name
    company_id := p.company_id
    createdAt := p.createdAt
    nse_data := match p.nse_data with | none => .null | some v => .array [v]
    bse_data := match p.bse_data with | none => .null | some v => .array [v] }

/-- One `UpdateOne({_id: p.docId}, update_doc, upsert=True)` against the
collection. -/
def upsertOne {Q : Type} [DecidableEq Q] (p : StockPayload Q) :
    List (StoredDoc Q) → Option (List (StoredDoc Q))
  | [] => some [applyInsert p]
  | d :: rest =>
    if d.docId = p.docId then (applyUpdateExisting p d).map (· :: rest)
    else (upsertOne p rest).map (d :: ·)

/-- The upfront validity filter of `save_stock_data` (src/db/stocks.py lines
11-15): a truthy `_id` and at least one truthy exchange payload. -/
def validStock {Q : Type} (p : StockPayload Q) : Bool :=
  decide (p.docId ≠ "") && (p.nse_data.isSome || p.bse_data.isSome)

/-- Function `save_stock_data`: filter the batch, then apply the bulk of upserts in
order. -/
def save_stock_data {Q : Type} [DecidableEq Q] (store : List (StoredDoc Q))
    (batch : List (StockPayload Q)) : Option (List (StoredDoc Q)) :=
  (batch.filter validStock).foldlM (fun s p => upsertOne p s) store

/-- Concrete first-day payload used in counterexamples and witnesses
(exchange payloads instantiated at `Q := ℕ`). -/
def payloadA : StockPayload ℕ :=
  { docId := "C1_20251010", stock_name := "Alpha", company_id := "C1"
    createdAt := 100, nse_data := some 11, bse_data := none }

/-- Same `_id` as `payloadA` with a different stockName and createdAt. -/
def payloadB : StockPayload ℕ :=
  { docId := "C1_20251010", stock_name := "Beta", company_id := "C1"
    createdAt := 200, nse_data := some 12, bse_data := none }

/-- Claim C5, counterexample: the update uses `$set`, not `$setOnInsert`,
so a second upsert for an `_id` already in the store overwrites stockName
and createdAt with the new payload's values ("Beta"/200 replace
"Alpha"/100). -/
theorem save_overwrites_nonexchange_counterexample :
    ((save_stock_data ([] : List (StoredDoc ℕ)) [payloadA]).bind
        (fun s => save_stock_data s [payloadB])).map (List.map StoredDoc.stock_name)
      = some ["Beta"] ∧
    ((save_stock_data ([] : List (StoredDoc ℕ)) [payloadA]).bind
        (fun s => save_stock_data s [payloadB])).map (List.map StoredDoc.createdAt)
      = some [200] ∧
    ("Beta" : String) ≠ "Alpha" := by
  refine ⟨rfl, rfl, by decide⟩

lemma applyUpdateExisting_scalars {Q : Type} [DecidableEq Q] (p : StockPayload Q)
    (d d2 : StoredDoc Q) (h : applyUpdateExisting p d = some d2) :
    d2.stock_name = p.stock_name ∧ d2.company_id = p.company_id ∧
    d2.createdAt = p.createdAt ∧ d2.docId = d.docId := by
  rcases hn : p.nse_data with _ | v <;> rcases hb : p.bse_data with _ | w <;>
    simp only [applyUpdateExisting, hn, hb, Option.isNone_none, Option.isNone_some,
      Bool.false_eq_true, if_true, if_false, Option.some_bind', Option.bind_eq_some,
      Option.map_eq_some', Option.some.injEq] at h
  · subst h
    simp
  · obtain ⟨a, ha, rfl⟩ := h
    simp
  · obtain ⟨a, ⟨b, hb2, rfl⟩, rfl⟩ := h
    simp
  · obtain ⟨e, ⟨b, hb1, rfl⟩, g, hb2, rfl⟩ := h
    simp

lemma upsert_existing_decomposes {Q : Type} [DecidableEq Q]
    (p : StockPayload Q) (pre suf : List (StoredDoc Q)) (d : StoredDoc Q)
    (hid : d.docId = p.docId) (hpre : ∀ e ∈ pre, e.docId ≠ p.docId)
    (res : List (StoredDoc Q)) (hres : upsertOne p (pre ++ d :: suf) = some res) :
    ∃ d2 : StoredDoc Q, res = pre ++ d2 :: suf ∧
      d2.stock_name = p.stock_name ∧ d2.createdAt = p.createdAt ∧
      d2.company_id = p.company_id ∧ d2.docId = d.docId := by
  induction pre generalizing res with
  | nil =>
    simp only [List.nil_append, upsertOne, if_pos hid] at hres
    rcases hupd : applyUpdateExisting p d with _ | d2 <;> rw [hupd] at hres
    · exact absurd hres (by simp)
    · simp only [Option.map_some'] at hres
      rcases hres with ⟨rfl⟩
      obtain ⟨h1, h2, h3, h4⟩ := applyUpdateExisting_scalars p d d2 hupd
      exact ⟨d2, by simp, h1, h3, h2, h4⟩
  | cons a as ih =>
    have ha : a.docId ≠ p.docId := hpre a (by simp)
    simp only [List.cons_append, upsertOne, if_neg ha, List.append_eq] at hres
    rcases hrec : upsertOne p (as ++ d :: suf) with _ | res' <;> rw [hrec] at hres
    · exact absurd hres (by simp)
    · simp only [Option.map_some'] at hres
      rcases hres with ⟨rfl⟩
      obtain ⟨d2, hres', hfields⟩ := ih (fun e he => hpre e (by simp [he])) res' hrec
      exact ⟨d2, by simp [hres'], hfields⟩

/-- Claim C5 as amended: an upsert for an `_id` already present rewrites the
non-exchange fields (stockName, companyId, createdAt) of the matched
document with the incoming payload's values on every call — `$set`, not
set-only-on-insert — and leaves every other document unchanged. -/
theorem upsert_existing_sets_nonexchange {Q : Type} [DecidableEq Q]
    (p : StockPayload Q) (pre suf : List (StoredDoc Q)) (d : StoredDoc Q)
    (hid : d.docId = p.docId) (hpre : ∀ e ∈ pre, e.docId ≠ p.docId)
    (res : List (StoredDoc Q)) (hres : upsertOne p (pre ++ d :: suf) = some res) :
    res.take pre.length = pre ∧
    res.drop (pre.length + 1) = suf ∧
    res[pre.length]?.map StoredDoc.stock_name = some p.stock_name ∧
    res[pre.length]?.map StoredDoc.createdAt = some p.createdAt ∧
    res[pre.length]?.map StoredDoc.company_id = some p.company_id ∧
    res[pre.length]?.map StoredDoc.docId = some d.docId := by
  obtain ⟨d2, rfl, h1, h2, h3, h4⟩ :=
    upsert_existing_decomposes p pre suf d hid hpre res hres
  have hget : (pre ++ d2 :: suf)[pre.length]? = some d2 := by
    rw [List.getElem?_append_right (Nat.le_refl _)]
    simp
  have hdrop : (pre ++ d2 :: suf).drop (pre.length + 1) = suf := by
    have hsplit : pre ++ d2 :: suf = (pre ++ [d2]) ++ suf := by simp
    have hlen : (pre ++ [d2]).length = pre.length + 1 := by simp
    rw [hsplit, ← hlen, List.drop_left]
  refine ⟨?_, hdrop, ?_, ?_, ?_, ?_⟩
  · rw [List.take_left]
  · rw [hget, Option.map_some', h1]
  · rw [hget, Option.map_some', h2]
  · rw [hget, Option.map_some', h3]
  · rw [hget, Option.map_some', h4]

/-- Witness for the amended C5: a store holding only the day document
inserted from `payloadA`; upserting `payloadB` (same `_id`) rewrites
stockName and createdAt to `payloadB`'s values. -/
theorem upsert_existing_sets_nonexchange_witness :
    ([{ applyInsert payloadB with nse_data := .array [11, 12] }] :
        List (StoredDoc ℕ)).take 0 = [] ∧
    ([{ applyInsert payloadB with nse_data := .array [11, 12] }] :
        List (StoredDoc ℕ)).drop 1 = [] ∧
    ([{ applyInsert payloadB with nse_data := .array [11, 12] }] :
        List (StoredDoc ℕ))[0]?.map StoredDoc.stock_name = some payloadB.stock_name ∧
    ([{ applyInsert payloadB with nse_data := .array [11, 12] }] :
        List (StoredDoc ℕ))[0]?.map StoredDoc.createdAt = some payloadB.createdAt ∧
    ([{ applyInsert payloadB with nse_data := .array [11, 12] }] :
        List (StoredDoc ℕ))[0]?.map StoredDoc.company_id = some payloadB.company_id ∧
    ([{ applyInsert payloadB with nse_data := .array [11, 12] }] :
        List (StoredDoc ℕ))[0]?.map StoredDoc.docId = some (applyInsert payloadA).docId := by
  have h := upsert_existing_sets_nonexchange payloadB [] []
    (applyInsert payloadA) (by decide) (by simp)
    [{ applyInsert payloadB with nse_data := .array [11, 12] }] (by decide)
  simpa using h

lemma addToSetField_idem {Q : Type} [DecidableEq Q] (m : MongoField Q) (v : Q)
    (f : MongoField Q) (h : addToSetField m v = some f) : addToSetField f v = some f := by
  rcases m with _ | l
  · exact absurd h (by simp [addToSetField])
  · simp only [addToSetField, Option.some.injEq] at h
    subst h
    by_cases hv : v ∈ l
    · simp [addToSetField, hv]
    · simp [addToSetField, hv]

lemma applyUpdateExisting_idem {Q : Type} [DecidableEq Q] (p : StockPayload Q)
    (d d2 : StoredDoc Q) (h : applyUpdateExisting p d = some d2) :
    applyUpdateExisting p d2 = some d2 := by
  rcases hn : p.nse_data with _ | v <;> rcases hb : p.bse_data with _ | w <;>
    simp only [applyUpdateExisting, hn, hb, Option.isNone_none, Option.isNone_some,
      Bool.false_eq_true, if_true, if_false, Option.some_bind', Option.bind_eq_some,
      Option.map_eq_some', Option.some.injEq] at h ⊢
  · subst h
    rfl
  · obtain ⟨a, ha, rfl⟩ := h
    exact ⟨a, by simpa using addToSetField_idem _ w a ha, by simp⟩
  · obtain ⟨a, ⟨b, hb2, rfl⟩, rfl⟩ := h
    exact ⟨_, ⟨b, by simpa using addToSetField_idem _ v b hb2, rfl⟩, by simp⟩
  · obtain ⟨e, ⟨b, hb1, rfl⟩, g, hb2, rfl⟩ := h
    refine ⟨_, ⟨b, by simpa using addToSetField_idem _ v b hb1, rfl⟩,
      g, by simpa using addToSetField_idem _ w g hb2, by simp⟩

lemma applyUpdateExisting_insert {Q : Type} [DecidableEq Q] (p : StockPayload Q) :
    applyUpdateExisting p (applyInsert p) = some (applyInsert p) := by
  rcases hn : p.nse_data with _ | v <;> rcases hb : p.bse_data with _ | w <;>
    simp [applyUpdateExisting, applyInsert, hn, hb, addToSetField]

lemma upsertOne_idem {Q : Type} [DecidableEq Q] (p : StockPayload Q)
    (store res : List (StoredDoc Q)) (h : upsertOne p store = some res) :
    upsertOne p res = some res := by
  induction store generalizing res with
  | nil =>
    simp only [upsertOne, Option.some.injEq] at h
    subst h
    have hid : (applyInsert p).docId = p.docId := rfl
    simp only [upsertOne]
    rw [if_pos hid, applyUpdateExisting_insert p]
    rfl
  | cons d rest ih =>
    by_cases hd : d.docId = p.docId
    · simp only [upsertOne, if_pos hd, Option.map_eq_some'] at h
      obtain ⟨d2, hupd, rfl⟩ := h
      have hd2 : d2.docId = p.docId := by
        obtain ⟨_, _, _, h4⟩ := applyUpdateExisting_scalars p d d2 hupd
        rw [h4, hd]
      simp only [upsertOne, if_pos hd2]
      rw [applyUpdateExisting_idem p d d2 hupd]
      rfl
    · simp only [upsertOne, if_neg hd, Option.map_eq_some'] at h
      obtain ⟨res', hrec, rfl⟩ := h
      simp only [upsertOne, if_neg hd]
      rw [ih res' hrec]
      rfl

lemma upsertOne_inserts_unique {Q : Type} [DecidableEq Q] (p : StockPayload Q)
    (store res : List (StoredDoc Q)) (h : upsertOne p store = some res)
    (hmiss : store.countP (fun e => e.docId == p.docId) = 0) :
    res.countP (fun e => e.docId == p.docId) = 1 := by
  induction store generalizing res with
  | nil =>
    simp only [upsertOne, Option.some.injEq] at h
    subst h
    simp [List.countP_cons, applyInsert]
  | cons d rest ih =>
    by_cases hd : d.docId = p.docId
    · exfalso
      simp [List.countP_cons, hd] at hmiss
    · have hpd : (d.docId == p.docId) = false := by simp [hd]
      simp only [List.countP_cons, hpd, Bool.false_eq_true, if_false,
        Nat.add_zero] at hmiss
      simp only [upsertOne, if_neg hd, Option.map_eq_some'] at h
      obtain ⟨res', hrec, rfl⟩ := h
      simp only [List.countP_cons, hpd, Bool.false_eq_true, if_false, Nat.add_zero]
      exact ih res' hrec hmiss

lemma save_single_unfold {Q : Type} [DecidableEq Q] (p : StockPayload Q)
    (store : List (StoredDoc Q)) :
    save_stock_data store [p]
      = if validStock p then upsertOne p store else some store := by
  by_cases hv : validStock p = true
  · rw [if_pos hv]
    simp only [save_stock_data, List.filter, hv, List.foldlM]
    rcases hup : upsertOne p store with _ | s <;> simp [hup]
  · rw [if_neg hv]
    simp only [save_stock_data, List.filter, Bool.not_eq_true] at *
    rw [hv]
    rfl

/-- Claim C6: upserting the same Day Document payload twice through
`save_stock_data` leaves the stored state identical to upserting it once —
the second call returns the same store (so stockName/createdAt and the
exchange arrays are unchanged), and no duplicate document is created: a
fresh `_id` appears in exactly one document after the upserts. -/
theorem save_upsert_idempotent {Q : Type} [DecidableEq Q] (p : StockPayload Q)
    (store res : List (StoredDoc Q)) (h : save_stock_data store [p] = some res) :
    save_stock_data res [p] = some res ∧
    (validStock p = true → store.countP (fun e => e.docId == p.docId) = 0 →
      res.countP (fun e => e.docId == p.docId) = 1) := by
  rw [save_single_unfold] at h
  rw [save_single_unfold]
  by_cases hv : validStock p = true
  · rw [if_pos hv] at h ⊢
    exact ⟨upsertOne_idem p store res h,
      fun _ hmiss => upsertOne_inserts_unique p store res h hmiss⟩
  · rw [if_neg hv] at h ⊢
    rcases h with ⟨rfl⟩
    exact ⟨rfl, fun hcon => absurd hcon hv⟩

/-- Witness for C6: `payloadA` upserted into the empty store gives exactly
the inserted document; upserting `payloadA` again returns the identical
store, which holds the `_id` exactly once. -/
theorem save_upsert_idempotent_witness :
    save_stock_data [applyInsert payloadA] [payloadA] = some [applyInsert payloadA] ∧
    List.countP (fun e => e.docId == payloadA.docId) [applyInsert payloadA] = 1 :=
  ⟨(save_upsert_idempotent payloadA [] [applyInsert payloadA] (by decide)).1,
   (save_upsert_idempotent payloadA [] [applyInsert payloadA] (by decide)).2
      (by decide) (by decide)⟩

/-! ## REST poll cycle (src/classes/TwelveDataManager.py lines 91-201)

`fetchData` iterates the symbol list, checking the shutdown flag at the top
of each iteration (trace `shutdown : ℕ → Bool`, indexed by iteration;
the post-loop save check is checkpoint `symbols.length`).  Each symbol's
fetch is wrapped in its own try/except: the outcome is either an exception
(`err`), a falsy response (`ok none`, skipped), or a quote payload
(`ok (some q)`), processed by `processQuoteData`.  The rate-limiter call
and the 0.2 s pacing sleep do not affect the produced data and are not
modelled here (the rate limiter is modelled separately below).

`TwelveDataManager` uses a companyId-keyed instrument registry
(`instrumentManager.instruments.values()`, `get_instrument(symbol)`,
`instrument.company_id`); the class in src/utils/instruments.py does not
provide that interface (see the C9 theorem), so the registry interface is
modelled from the spec here.  Python dicts are association lists with
unique keys; `dictGet`/`dictSet` read and update by key. -/

/-- Modelled from the spec: an Instrument of the Instrument Registry,
`{symbol, exchange, displayName, companyId}` — the shape
`TwelveDataManager` consumes; absent from src/utils/instruments.py, whose
`Instrument` lacks `companyId`. -/
structure SpecInstrument where
  symbol : String
  exchange : String
  name : String
  company_id : String
  deriving Repr, DecidableEq

/-- Modelled from the spec: the registry operation
`lookup(symbol) -> optional Instrument` used as
`instrumentManager.get_instrument(symbol)` by `processQuoteData`; the
registry is passed as its list of values. -/
def lookupInstrument (reg : List SpecInstrument) (s : String) : Option SpecInstrument :=
  reg.find? (fun i => i.symbol == s)

def dictGet {α : Type} (m : List (String × α)) (k : String) : Option α :=
  (m.find? (fun e => e.1 == k)).map Prod.snd

def dictSet {α : Type} : List (String × α) → String → α → List (String × α)
  | [], k, v => [(k, v)]
  | (k', v') :: rest, k, v =>
    if k' == k then (k, v) :: rest else (k', v') :: dictSet rest k v

/-- A raw quote response dict (`quote.as_json()`), restricted to the keys
`processQuoteData` reads; numeric strings/floats are exact rationals,
missing numeric keys are the default 0, a missing symbol/exchange is the
empty string (falsy). -/
structure QuoteIn where
  symbol : String
  exchange : String
  openPrice : ℚ
  high : ℚ
  low : ℚ
  close : ℚ
  previous_close : ℚ
  volume : ℤ
  change : ℚ
  percent_change : ℚ
  timestamp : ℤ
  deriving Repr, DecidableEq

/-- The normalized `required_data` record built by `processQuoteData`
(src/classes/TwelveDataManager.py lines 176-188). -/
structure RequiredData where
  openPrice : ℚ
  high : ℚ
  low : ℚ
  close : ℚ
  prev_close : ℚ
  last_price : ℚ
  volume : ℤ
  change : ℚ
  percent_change : ℚ
  createdAt : ℤ
  type : String
  deriving Repr, DecidableEq

/-- Python `round(x, 2)` (float half-to-even rounding idealized as exact
rounding to the nearest hundredth). -/
def round2 (x : ℚ) : ℚ := (round (x * 100) : ℤ) / 100

def normalizeQuote (q : QuoteIn) : RequiredData :=
  { openPrice := round2 q.openPrice
    high := round2 q.high
    low := round2 q.low
    close := round2 q.close
    prev_close := round2 q.previous_close
    last_price := round2 q.close
    volume := q.volume
    change := round2 q.change
    percent_change := round2 q.percent_change
    createdAt := q.timestamp
    type := q.exchange }

/-- Method `prepare_stock_data` (src/classes/TwelveDataManager.py lines 128-147):
one skeleton Day Document per registry instrument, keyed by companyId,
with both exchange slots empty. -/
def prepare_stock_data (reg : List SpecInstrument) (dateStr : String)
    (createdAt : ℤ) : List (String × StockPayload RequiredData) :=
  reg.map (fun inst =>
    (inst.company_id,
      { docId := inst.company_id ++ "_" ++ dateStr
        stock_name := inst.name
        company_id := inst.company_id
        createdAt := createdAt
        nse_data := none
        bse_data := none }))

/-- Method `processQuoteData` (src/classes/TwelveDataManager.py lines 149-201):
falsy symbol, unknown instrument, missing skeleton entry or unknown
exchange are logged and leave the batch unchanged; otherwise the
normalized record is written into the matching exchange slot. -/
def processQuoteData (reg : List SpecInstrument) (q : QuoteIn)
    (stock_data : List (String × StockPayload RequiredData)) :
    List (String × StockPayload RequiredData) :=
  if q.symbol = "" then stock_data
  else
    match lookupInstrument reg q.symbol with
    | none => stock_data
    | some inst =>
      match dictGet stock_data inst.company_id with
      | none => stock_data
      | some stock =>
        if q.exchange = "NSE" then
          dictSet stock_data inst.company_id { stock with nse_data := some (normalizeQuote q) }
        else if q.exchange = "BSE" then
          dictSet stock_data inst.company_id { stock with bse_data := some (normalizeQuote q) }
        else stock_data

/-- Outcome of `self.client.quote(symbol=...).as_json()` for one symbol:
an exception, a falsy result, or a quote dict. -/
inductive FetchOutcome where
  | err : FetchOutcome
  | ok : Option QuoteIn → FetchOutcome

/-- The body of one loop iteration after the shutdown check: the try/except
around the quote request — an error is logged and the cycle continues. -/
def fetchStep (reg : List SpecInstrument) (fetch : String → FetchOutcome)
    (s : String) (m : List (String × StockPayload RequiredData)) :
    List (String × StockPayload RequiredData) :=
  match fetch s with
  | .err => m
  | .ok none => m
  | .ok (some q) => processQuoteData reg q m

/-- The `for symbol in self.symbols` loop with its
`if self.shutdown_event.is_set(): break` at the top of each iteration.
Also returns whether the loop was broken by shutdown. -/
def fetchLoop (reg : List SpecInstrument) (fetch : String → FetchOutcome)
    (shutdown : ℕ → Bool) :
    List String → ℕ → List (String × StockPayload RequiredData) →
      List (String × StockPayload RequiredData) × Bool
  | [], _, m => (m, false)
  | s :: rest, i, m =>
    if shutdown i then (m, true)
    else fetchLoop reg fetch shutdown rest (i + 1) (fetchStep reg fetch s m)

structure CycleResult where
  data : List (String × StockPayload RequiredData)
  flushes : ℕ
  batch : Option (List (StockPayload RequiredData))

/-- Method `fetchData` (src/classes/TwelveDataManager.py lines 91-126): empty
symbol list returns early (no batch, no save); otherwise build the
skeleton, run the loop, and — only if the shutdown flag is not set — call
`save_stock_data(list(stock_data.values()))` exactly once.  `flushes`
counts the save calls, `batch` records the flushed values. -/
def fetchData (reg : List SpecInstrument) (symbols : List String)
    (fetch : String → FetchOutcome) (shutdown : ℕ → Bool)
    (dateStr : String) (createdAt : ℤ) : CycleResult :=
  if symbols = [] then { data := [], flushes := 0, batch := none }
  else
    let m0 := prepare_stock_data reg dateStr createdAt
    let r := fetchLoop reg fetch shutdown symbols 0 m0
    if r.2 || shutdown symbols.length then { data := r.1, flushes := 0, batch := none }
    else { data := r.1, flushes := 1, batch := some (r.1.map Prod.snd) }

/-- One-instrument demo registry for concrete cycle runs. -/
def reg1 : List SpecInstrument := [⟨"TCS", "NSE", "Tata Consultancy", "C1"⟩]

/-- Claim C2, counterexample: when the shutdown flag is set mid-cycle
(before iteration 1 of a two-symbol cycle), the code skips the save call
entirely — zero flushes, not the claimed exactly-one flush on a cycle
interrupted by shutdown. -/
theorem fetchData_shutdown_skips_flush :
    ((fun i => decide (1 ≤ i)) 1 = true) ∧
    (fetchData reg1 ["TCS:NSE", "TCS:BSE"] (fun _ => .ok none)
        (fun i => decide (1 ≤ i)) "20251010" 0).flushes = 0 ∧
    (fetchData reg1 ["TCS:NSE", "TCS:BSE"] (fun _ => .ok none)
        (fun i => decide (1 ≤ i)) "20251010" 0).batch = none := by
  refine ⟨by decide, by rfl, by rfl⟩

lemma fetchLoop_noShutdown (reg : List SpecInstrument)
    (fetch : String → FetchOutcome) (l : List String) (i : ℕ)
    (m : List (String × StockPayload RequiredData)) :
    fetchLoop reg fetch (fun _ => false) l i m
      = (l.foldl (fun m s => fetchStep reg fetch s m) m, false) := by
  induction l generalizing i m with
  | nil => rfl
  | cons s rest ih =>
    rw [fetchLoop, if_neg (by simp), ih (i + 1)]
    rfl

/-- Claim C2 as amended: in a cycle that is not interrupted by shutdown, a
symbol whose fetch throws is logged and skipped — the produced batch is
exactly the batch of the same cycle run without that symbol, so normalized
records are still produced for every other symbol — and the cycle performs
exactly one flush (the save call is skipped entirely, not repeated, when
shutdown interrupts the cycle). -/
theorem fetchData_error_isolated (reg : List SpecInstrument)
    (fetch : String → FetchOutcome) (s : String) (xs ys : List String)
    (hs : fetch s = .err) (hne : xs ++ ys ≠ [])
    (dateStr : String) (createdAt : ℤ) :
    (fetchData reg (xs ++ s :: ys) fetch (fun _ => false) dateStr createdAt).data
      = (fetchData reg (xs ++ ys) fetch (fun _ => false) dateStr createdAt).data ∧
    (fetchData reg (xs ++ s :: ys) fetch (fun _ => false) dateStr createdAt).flushes
      = 1 ∧
    (fetchData reg (xs ++ ys) fetch (fun _ => false) dateStr createdAt).flushes
      = 1 := by
  have hne2 : xs ++ s :: ys ≠ [] := by
    intro hcon
    exact absurd (List.append_eq_nil.mp hcon).2 (by simp)
  have hstep : ∀ m, fetchStep reg fetch s m = m := by
    intro m
    rw [fetchStep, hs]
  refine ⟨?_, ?_, ?_⟩
  · simp only [fetchData, if_neg hne2, if_neg hne, fetchLoop_noShutdown,
      Bool.or_false, Bool.false_eq_true, if_false, List.foldl_append,
      List.foldl_cons, hstep]
  · simp only [fetchData, if_neg hne2, fetchLoop_noShutdown, Bool.or_false,
      Bool.false_eq_true, if_false]
  · simp only [fetchData, if_neg hne, fetchLoop_noShutdown, Bool.or_false,
      Bool.false_eq_true, if_false]

/-- Fetch oracle for the C2 witness: the symbol `BAD` throws, everything
else returns a falsy response. -/
def fetchW : String → FetchOutcome := fun t => if t = "BAD" then .err else .ok none

/-- Witness for the amended C2: a two-symbol cycle where `BAD` throws
produces the same batch as the one-symbol cycle without it, and both
cycles flush exactly once. -/
theorem fetchData_error_isolated_witness :
    (fetchData reg1 (["TCS:NSE"] ++ "BAD" :: []) fetchW (fun _ => false)
        "20251010" 0).data
      = (fetchData reg1 (["TCS:NSE"] ++ []) fetchW (fun _ => false)
        "20251010" 0).data ∧
    (fetchData reg1 (["TCS:NSE"] ++ "BAD" :: []) fetchW (fun _ => false)
        "20251010" 0).flushes = 1 ∧
    (fetchData reg1 (["TCS:NSE"] ++ []) fetchW (fun _ => false)
        "20251010" 0).flushes = 1 :=
  fetchData_error_isolated reg1 fetchW ("BAD") ["TCS:NSE"] [] (by rfl)
    (by decide) "20251010" 0

/-! ## Rate limiter (src/classes/TwelveDataManager.py lines 41-75)

`time.time()` float timestamps are exact rationals.  The deque
`minute_calls` is a list, oldest first.  `acquire()` runs under the lock;
concurrency reduces to an arbitrary interleaving, i.e. an arbitrary
sequence of `acquire` calls with nondecreasing wall-clock readings.  One
call supplies `now` (the first `time.time()` reading) and `wake` (the
reading after `time.sleep(sleep_time)` in the over-quota branch;
`time.sleep` sleeps at least its argument, so a valid trace has
`wake ≥ oldest + 60`).  `none` models the `IndexError` of
`minute_calls[0]` on an empty deque (quota 0). -/

/-- Loop `while self.minute_calls and now - self.minute_calls[0] >= 60.0:
popleft()` — drop the leading timestamps that fell out of the window. -/
def rlCleanup (now : ℚ) (calls : List ℚ) : List ℚ :=
  calls.dropWhile (fun t => decide (t + 60 ≤ now))

/-- Method `RateLimiter.acquire` (src/classes/TwelveDataManager.py lines 49-75):
clean up, then if the window still holds `per_minute` calls, sleep
`60 - (now - minute_calls[0])` seconds (when positive), re-read the clock
(`wake`) and clean up again; finally record the current reading. -/
def acquire (per_minute : ℕ) (calls : List ℚ) (now wake : ℚ) :
    Option (List ℚ × ℚ) :=
  let c1 := rlCleanup now calls
  if per_minute ≤ c1.length then
    match c1 with
    | [] => none
    | first :: _ =>
      if 0 < 60 - (now - first) then some (rlCleanup wake c1 ++ [wake], wake)
      else some (c1 ++ [now], now)
  else some (c1 ++ [now], now)

/-- The two clock readings one `acquire()` call can take. -/
structure AcquireIn where
  now : ℚ
  wake : ℚ

/-- A sequence of `acquire()` calls against one `RateLimiter`, returning
the final deque and the list of all recorded timestamps. -/
def runAcquires (Q : ℕ) : List ℚ → List ℚ → List AcquireIn → Option (List ℚ × List ℚ)
  | calls, hist, [] => some (calls, hist)
  | calls, hist, inp :: rest =>
    match acquire Q calls inp.now inp.wake with
    | none => none
    | some (c, eff) => runAcquires Q c (hist ++ [eff]) rest

/-- Validity of the post-sleep clock reading: when the over-quota branch
will run (cleaned deque still at quota), the reading after
`time.sleep(60 - (now - oldest))` is at least `oldest + 60`. -/
def wakeOk (Q : ℕ) (calls : List ℚ) (now wake : ℚ) : Bool :=
  match rlCleanup now calls with
  | [] => true
  | first :: rest => !decide (Q ≤ rest.length + 1) || decide (first + 60 ≤ wake)

/-- A physically realizable input trace: wall clock never goes backwards
across or inside calls, and sleeps last at least their argument. -/
def goodInputs (Q : ℕ) : List ℚ → ℚ → List AcquireIn → Bool
  | _, _, [] => true
  | calls, t, inp :: rest =>
    decide (t ≤ inp.now) && decide (inp.now ≤ inp.wake) &&
      wakeOk Q calls inp.now inp.wake &&
      (match acquire Q calls inp.now inp.wake with
       | none => true
       | some (c, eff) => goodInputs Q c eff rest)

/-- Number of recorded timestamps inside the trailing 60-second window
ending at `T` (half-open on the old side, matching the `>= 60` discard). -/
def windowCount (hist : List ℚ) (T : ℚ) : ℕ :=
  hist.countP (fun x => decide (T - 60 < x) && decide (x ≤ T))

/-- Invariant tying the deque to the record history after a call at
effective time `t`. -/
structure RLInv (Q : ℕ) (hist calls : List ℚ) (t : ℚ) : Prop where
  sorted : hist.Pairwise (· ≤ ·)
  bounded : ∀ x ∈ hist, x ≤ t
  callsEq : calls = hist.filter (fun x => decide (t - 60 < x))
  callsLen : calls.length ≤ Q
  window : ∀ T : ℚ, windowCount hist T ≤ Q

lemma dropWhile_length_le {α : Type} (p : α → Bool) (l : List α) :
    (l.dropWhile p).length ≤ l.length := by
  induction l with
  | nil => simp
  | cons a l ih =>
    rw [List.dropWhile_cons]
    by_cases h : p a = true
    · rw [if_pos h]
      simp only [List.length_cons]
      omega
    · rw [if_neg h]

lemma rlCleanup_eq_filter (c : ℚ) (l : List ℚ) (hl : l.Pairwise (· ≤ ·)) :
    rlCleanup c l = l.filter (fun x => decide (c - 60 < x)) := by
  induction l with
  | nil => rfl
  | cons a l ih =>
    rw [List.pairwise_cons] at hl
    obtain ⟨ha, hl2⟩ := hl
    by_cases hpa : a + 60 ≤ c
    · rw [rlCleanup, List.dropWhile_cons_of_pos (by simpa using hpa),
        List.filter_cons_of_neg (by simp only [decide_eq_true_eq, not_lt]; linarith)]
      exact ih hl2
    · rw [rlCleanup, List.dropWhile_cons_of_neg (by simpa using hpa),
        List.filter_cons_of_pos (by simp only [decide_eq_true_eq]; linarith)]
      rw [List.filter_eq_self.mpr]
      intro x hx
      have := ha x hx
      simp only [decide_eq_true_eq]
      linarith

lemma RLInv.push (Q : ℕ) (hist calls : List ℚ) (t : ℚ) (inv : RLInv Q hist calls t)
    (eff : ℚ) (hteff : t ≤ eff)
    (hlen : (hist.filter (fun x => decide (eff - 60 < x))).length + 1 ≤ Q) :
    RLInv Q (hist ++ [eff]) (hist.filter (fun x => decide (eff - 60 < x)) ++ [eff])
      eff := by
  obtain ⟨hs, hb, hc, hl, hw⟩ := inv
  refine ⟨?_, ?_, ?_, ?_, ?_⟩
  · rw [List.pairwise_append]
    refine ⟨hs, by simp, ?_⟩
    intro a ha b hb2
    simp only [List.mem_singleton] at hb2
    subst hb2
    exact le_trans (hb a ha) hteff
  · intro x hx
    rcases List.mem_append.mp hx with hx | hx
    · exact le_trans (hb x hx) hteff
    · simp only [List.mem_singleton] at hx
      subst hx
      exact le_refl _
  · rw [List.filter_append]
    congr 1
    simp only [List.filter_cons, List.filter_nil]
    rw [if_pos (by simp only [decide_eq_true_eq]; linarith)]
  · rw [List.length_append]
    simpa using hlen
  · intro T
    unfold windowCount
    rw [List.countP_append, List.countP_singleton]
    by_cases heff : (decide (T - 60 < eff) && decide (eff ≤ T)) = true
    · rw [if_pos heff]
      simp only [Bool.and_eq_true, decide_eq_true_eq] at heff
      have h2 : List.countP (fun x => decide (T - 60 < x) && decide (x ≤ T)) hist
          ≤ (hist.filter (fun x => decide (eff - 60 < x))).length := by
        rw [← List.countP_eq_length_filter]
        apply List.countP_mono_left
        intro x hx hpx
        simp only [Bool.and_eq_true, decide_eq_true_eq] at hpx
        simp only [decide_eq_true_eq]
        linarith [heff.2, hpx.1]
      omega
    · rw [if_neg heff]
      have := hw T
      unfold windowCount at this
      omega

lemma acquire_step (Q : ℕ) (hQ : 0 < Q) (hist calls : List ℚ) (t : ℚ)
    (inv : RLInv Q hist calls t) (now wake : ℚ) (hnow : t ≤ now) (hnw : now ≤ wake)
    (hwk : wakeOk Q calls now wake = true) :
    ∃ c eff, acquire Q calls now wake = some (c, eff) ∧ t ≤ eff ∧
      RLInv Q (hist ++ [eff]) c eff := by
  have hcallsSorted : calls.Pairwise (· ≤ ·) := by
    rw [inv.callsEq]
    exact inv.sorted.filter _
  have hc1 : rlCleanup now calls = hist.filter (fun x => decide (now - 60 < x)) := by
    rw [inv.callsEq, rlCleanup_eq_filter now _ (inv.sorted.filter _), List.filter_filter]
    apply List.filter_congr
    intro x hx
    by_cases hx2 : now - 60 < x
    · have h1 : decide (now - 60 < x) = true := by simpa using hx2
      have h2 : decide (t - 60 < x) = true := by
        simp only [decide_eq_true_eq]
        linarith
      rw [h1, h2, Bool.true_and]
    · have h1 : decide (now - 60 < x) = false := by simpa using hx2
      rw [h1, Bool.false_and]
  have hc1len : (rlCleanup now calls).length ≤ Q := by
    calc (rlCleanup now calls).length ≤ calls.length := dropWhile_length_le _ _
    _ ≤ Q := inv.callsLen
  by_cases hfull : Q ≤ (rlCleanup now calls).length
  · rcases hc1e : rlCleanup now calls with _ | ⟨first, rest⟩
    · rw [hc1e] at hfull
      simp at hfull
      omega
    · rw [hc1e] at hfull hc1 hc1len
      have hQle : Q ≤ rest.length + 1 := by simpa using hfull
      have hwake : first + 60 ≤ wake := by
        unfold wakeOk at hwk
        rw [hc1e] at hwk
        simp only [Bool.or_eq_true, Bool.not_eq_true', decide_eq_false_iff_not,
          decide_eq_true_eq] at hwk
        rcases hwk with h | h
        · exact absurd hQle h
        · exact h
      have hfirst : now - 60 < first := by
        have hmem : first ∈ hist.filter (fun x => decide (now - 60 < x)) := by
          rw [← hc1]
          exact List.mem_cons_self _ _
        simpa using (List.mem_filter.mp hmem).2
      have hpos : 0 < 60 - (now - first) := by linarith
      have hsorted1 : (first :: rest).Pairwise (fun a b => a ≤ b) := by
        rw [hc1]
        exact inv.sorted.filter _
      have hc2 : rlCleanup wake (first :: rest)
          = hist.filter (fun x => decide (wake - 60 < x)) := by
        rw [rlCleanup_eq_filter wake _ hsorted1, hc1, List.filter_filter]
        apply List.filter_congr
        intro x hx
        by_cases hx2 : wake - 60 < x
        · have h1 : decide (wake - 60 < x) = true := by simpa using hx2
          have h2 : decide (now - 60 < x) = true := by
            simp only [decide_eq_true_eq]
            linarith
          rw [h1, h2, Bool.true_and]
        · have h1 : decide (wake - 60 < x) = false := by simpa using hx2
          rw [h1, Bool.false_and]
      have hc2len : (rlCleanup wake (first :: rest)).length + 1 ≤ Q := by
        have hdrop : rlCleanup wake (first :: rest)
            = List.dropWhile (fun x => decide (x + 60 ≤ wake)) rest := by
          rw [rlCleanup, List.dropWhile_cons_of_pos (by simpa using hwake)]
        have hlen2 := dropWhile_length_le (fun x => decide (x + 60 ≤ wake)) rest
        have hlen3 : (first :: rest).length ≤ Q := hc1len
        simp only [List.length_cons] at hlen3
        rw [hdrop]
        omega
      have hacq : acquire Q calls now wake
          = some (rlCleanup wake (first :: rest) ++ [wake], wake) := by
        simp only [acquire, hc1e]
        rw [if_pos (by simpa using hfull), if_pos hpos]
      refine ⟨_, wake, hacq, le_trans hnow hnw, ?_⟩
      have hpush := RLInv.push Q hist calls t inv wake (le_trans hnow hnw)
        (by rw [← hc2]; exact hc2len)
      rw [hc2]
      exact hpush
  · have hacq : acquire Q calls now wake
        = some (rlCleanup now calls ++ [now], now) := by
      simp only [acquire]
      rw [if_neg hfull]
    refine ⟨_, now, hacq, hnow, ?_⟩
    have hpush := RLInv.push Q hist calls t inv now hnow
      (by rw [← hc1]; omega)
    rw [hc1]
    exact hpush

lemma runAcquires_window (Q : ℕ) (hQ : 0 < Q) (inputs : List AcquireIn) :
    ∀ hist calls t, RLInv Q hist calls t →
      goodInputs Q calls t inputs = true →
      ∀ res, runAcquires Q calls hist inputs = some res →
      ∀ T, windowCount res.2 T ≤ Q := by
  induction inputs with
  | nil =>
    intro hist calls t inv _ res hres T
    simp only [runAcquires, Option.some.injEq] at hres
    subst hres
    exact inv.window T
  | cons inp rest ih =>
    intro hist calls t inv hgood res hres T
    simp only [goodInputs, Bool.and_eq_true, decide_eq_true_eq] at hgood
    obtain ⟨⟨⟨hnow, hnw⟩, hwk⟩, hrest⟩ := hgood
    obtain ⟨c, eff, hacq, hteff, inv2⟩ :=
      acquire_step Q hQ hist calls t inv inp.now inp.wake hnow hnw hwk
    simp only [hacq] at hrest
    simp only [runAcquires, hacq] at hres
    exact ih (hist ++ [eff]) c eff inv2 hrest res hres T

/-- Claim C1: for every positive quota `Q` and every physically
realizable sequence of `acquire()` calls (wall clock nondecreasing, sleeps
last at least their argument; the lock serializes concurrent callers into
such a sequence), the recorded call timestamps never put more than `Q`
calls inside any trailing 60-second window. -/
theorem rateLimiter_window_bound (Q : ℕ) (hQ : 0 < Q) (inputs : List AcquireIn)
    (hgood : goodInputs Q [] 0 inputs = true) (calls hist : List ℚ)
    (hrun : runAcquires Q [] [] inputs = some (calls, hist)) (T : ℚ) :
    windowCount hist T ≤ Q := by
  have inv0 : RLInv Q [] [] 0 := by
    refine ⟨List.Pairwise.nil, by simp, rfl, by simp, ?_⟩
    intro T2
    simp [windowCount]
  exact runAcquires_window Q hQ inputs [] [] 0 inv0 hgood (calls, hist) hrun T

/-- Witness for C1: quota 2, three calls — two admitted at time 0, the
third call at time 10 finds the window full, sleeps to time 70 and records
there; the window ending at time 0 holds exactly the 2 admitted calls. -/
theorem rateLimiter_window_bound_witness :
    windowCount [0, 0, 70] 0 ≤ 2 :=
  rateLimiter_window_bound 2 (by decide) [⟨0, 0⟩, ⟨0, 0⟩, ⟨10, 70⟩]
    (by norm_num [goodInputs, wakeOk, acquire, rlCleanup, List.dropWhile])
    [70] [0, 0, 70]
    (by norm_num [runAcquires, acquire, rlCleanup, List.dropWhile]) 0

end StockAPI
